import Mathlib

/-!
Verification development for `hooks/check_file_length.py`, a pre-commit
file-length checker.  The script is embedded shallowly: the per-file loop of
`main` becomes `Run` below, the filesystem and `os.path.relpath` become an
explicit oracle `Sys`, and the slice of Python's `re` module that the script
relies on (compilation of the translated glob patterns, `Pattern.search`)
is modelled by a small regular-expression engine with Brzozowski
derivatives.
-/

namespace CheckFileLength

/-- Regular expressions over `Char`, as produced by compiling the script's
skip patterns.  `pred p` matches exactly the single characters satisfying
`p`; it covers literal characters, the metacharacter `.` (any character
except a line feed, as in Python without `DOTALL`) and character classes. -/
inductive Regex : Type where
  | zero : Regex
  | eps : Regex
  | pred (p : Char → Bool) : Regex
  | concat (r₁ r₂ : Regex) : Regex
  | alt (r₁ r₂ : Regex) : Regex
  | star (r : Regex) : Regex

/-- Whether a regex accepts the empty string. -/
def nullable : Regex → Bool
  | .zero => false
  | .eps => true
  | .pred _ => false
  | .concat r₁ r₂ => nullable r₁ && nullable r₂
  | .alt r₁ r₂ => nullable r₁ || nullable r₂
  | .star _ => true

/-- Brzozowski derivative of a regex with respect to one character. -/
def deriv : Regex → Char → Regex
  | .zero, _ => .zero
  | .eps, _ => .zero
  | .pred p, c => if p c then .eps else .zero
  | .concat r₁ r₂, c =>
      if nullable r₁ then .alt (.concat (deriv r₁ c) r₂) (deriv r₂ c)
      else .concat (deriv r₁ c) r₂
  | .alt r₁ r₂, c => .alt (deriv r₁ c) (deriv r₂ c)
  | .star r, c => .concat (deriv r c) (.star r)

/-- Does some prefix of the input match the regex? -/
def matchHere : Regex → List Char → Bool
  | r, [] => nullable r
  | r, c :: s => nullable r || matchHere (deriv r c) s

/-- Substring search, the semantics of Python's `Pattern.search`: does the
regex match starting at some position of the input? -/
def rsearch : Regex → List Char → Bool
  | r, [] => nullable r
  | r, c :: s => matchHere r (c :: s) || rsearch r s

/-- The language of a regex, as an inductive predicate.  The `starCons`
rule consumes a nonempty first chunk, which makes inversion along a leading
character direct. -/
inductive Accepts : Regex → List Char → Prop where
  | eps : Accepts .eps []
  | pred {p : Char → Bool} {c : Char} : p c = true → Accepts (.pred p) [c]
  | concat {r₁ r₂ : Regex} {s₁ s₂ : List Char} :
      Accepts r₁ s₁ → Accepts r₂ s₂ → Accepts (.concat r₁ r₂) (s₁ ++ s₂)
  | altL {r₁ r₂ : Regex} {s : List Char} : Accepts r₁ s → Accepts (.alt r₁ r₂) s
  | altR {r₁ r₂ : Regex} {s : List Char} : Accepts r₂ s → Accepts (.alt r₁ r₂) s
  | starNil {r : Regex} : Accepts (.star r) []
  | starCons {r : Regex} {c : Char} {s₁ s₂ : List Char} :
      Accepts r (c :: s₁) → Accepts (.star r) s₂ → Accepts (.star r) (c :: s₁ ++ s₂)

/-- Regex matching exactly one given literal character. -/
def litChar (c : Char) : Regex := .pred (fun x => x == c)

/-- The regex metacharacter `.`: any character except a line feed (Python's
default, without the `DOTALL` flag). -/
def dotR : Regex := .pred (fun x => x != '\n')

/-- Membership test of a character class given as inclusive ranges (a
single character is the range from itself to itself) plus a negation flag.
A negated class matches any character outside the ranges, including the
line feed, as in Python. -/
def classPred (neg : Bool) (items : List (Char × Char)) (c : Char) : Bool :=
  let m := items.any (fun i => decide (i.1 ≤ c) && decide (c ≤ i.2))
  if neg then !m else m

/-- Body of a bracketed character class, after the opening bracket and the
optional leading negation or literal bracket have been consumed.  Mirrors
Python `re`: an unterminated class, a reversed range, and an alphanumeric
escape are compile-time errors; a trailing dash is a literal. -/
def parseClassBody : List Char → List (Char × Char) →
    Except String (List (Char × Char) × List Char)
  | [], _ => .error "unterminated character set"
  | ']' :: rest, acc => .ok (acc.reverse, rest)
  | '\\' :: [], _ => .error "bad escape (end of pattern)"
  | '\\' :: d :: rest, acc =>
      if d.isAlphanum then .error "unsupported escape in character set"
      else parseClassBody rest ((d, d) :: acc)
  | c :: '-' :: ']' :: rest, acc => .ok ((('-', '-') :: (c, c) :: acc).reverse, rest)
  | c :: '-' :: d :: rest, acc =>
      if c ≤ d then parseClassBody rest ((c, d) :: acc)
      else .error "bad character range"
  | c :: rest, acc => parseClassBody rest ((c, c) :: acc)

/-- Parse a bracketed character class: optional `^` negation, and a `]` in
first position is a literal, as in Python. -/
def parseClass (s : List Char) : Except String (Regex × List Char) :=
  match s with
  | '^' :: ']' :: rest =>
      (parseClassBody rest [(']', ']')]).map (fun x => (.pred (classPred true x.1), x.2))
  | '^' :: rest =>
      (parseClassBody rest []).map (fun x => (.pred (classPred true x.1), x.2))
  | ']' :: rest =>
      (parseClassBody rest [(']', ']')]).map (fun x => (.pred (classPred false x.1), x.2))
  | rest =>
      (parseClassBody rest []).map (fun x => (.pred (classPred false x.1), x.2))

/-- Repetition bookkeeping while parsing a sequence: has the most recent
atom just been repeated (so a second repetition is a `multiple repeat`
error), and has a lazy `?` marker already been attached to it? -/
inductive RepState : Type where
  | fresh : RepState
  | repeated : RepState
  | lazyMarked : RepState

/-- Concatenation of a list of regexes, right associated with a trailing
epsilon. -/
def mkSeq : List Regex → Regex
  | [] => .eps
  | r :: rs => .concat r (mkSeq rs)

/-- Parser for the fragment of Python `re` syntax reachable from this
script: literal characters, `.`/`*`/`+`/`?`, escapes of non-alphanumeric
characters, and bracketed classes.  Errors mirror Python (`nothing to
repeat`, `multiple repeat`, unterminated classes, bad escapes).  Grouping,
alternation, anchors, and special escapes lie outside the modelled
fragment and are rejected.  The accumulator `acc` holds the atoms parsed
so far, most recent first; `fuel` bounds the recursion, and one more than
the input length always suffices since every step consumes at least one
character. -/
def parseSeqF : Nat → List Regex → RepState → List Char → Except String Regex
  | _, acc, _, [] => .ok (mkSeq acc.reverse)
  | 0, _, _, _ :: _ => .error "internal: out of fuel"
  | fuel + 1, acc, st, c :: rest =>
    if c = '*' || c = '+' || c = '?' then
      match acc, st with
      | [], _ => .error "nothing to repeat"
      | r :: acc', .fresh =>
          let r' := if c = '*' then Regex.star r
            else if c = '+' then Regex.concat r (Regex.star r)
            else Regex.alt Regex.eps r
          parseSeqF fuel (r' :: acc') .repeated rest
      | _ :: _, .repeated =>
          if c = '?' then parseSeqF fuel acc .lazyMarked rest
          else .error "multiple repeat"
      | _ :: _, .lazyMarked => .error "multiple repeat"
    else if c = '\\' then
      match rest with
      | [] => .error "bad escape (end of pattern)"
      | d :: rest' =>
          if d.isAlphanum then .error "unsupported escape"
          else parseSeqF fuel (litChar d :: acc) .fresh rest'
    else if c = '.' then parseSeqF fuel (dotR :: acc) .fresh rest
    else if c = '[' then
      match parseClass rest with
      | .error e => .error e
      | .ok (r, rest') => parseSeqF fuel (r :: acc) .fresh rest'
    else if c = '(' || c = ')' || c = '|' || c = '^' || c = '$' then
      .error "construct outside the modelled fragment"
    else parseSeqF fuel (litChar c :: acc) .fresh rest

/-- Model of `re.compile` on the modelled fragment. -/
def parseRegex (s : List Char) : Except String Regex :=
  parseSeqF (s.length + 1) [] .fresh s

/-- Python `str.replace` with a single-character needle: every occurrence
of `old` is replaced by `new`. -/
def pyReplace (old : Char) (new : List Char) : List Char → List Char
  | [] => []
  | c :: s => (if c = old then new else [c]) ++ pyReplace old new s

/-- The script's glob-to-regex translation (lines 31 to 33 of the source):
first `.` becomes an escaped dot, then `*` becomes `.*`, then `?` becomes
`.`, each as a plain string replacement. -/
def translate (s : List Char) : List Char :=
  pyReplace '?' ['.'] (pyReplace '*' ['.', '*'] (pyReplace '.' ['\\', '.'] s))

/-- What one pattern character contributes to the translated string. -/
def translateChar (c : Char) : List Char :=
  if c = '.' then ['\\', '.']
  else if c = '*' then ['.', '*']
  else if c = '?' then ['.']
  else [c]

/-- Compilation of one skip pattern: glob translation followed by regex
compilation, as in line 34 of the source. -/
def compilePattern (p : List Char) : Except String Regex :=
  parseRegex (translate p)

/-- Compilation of the whole skip list, in order; the first failure
propagates, modelling the uncaught `re.error` in the compilation loop. -/
def compileSkips : List String → Except String (List Regex)
  | [] => .ok []
  | p :: ps =>
    match compilePattern p.data with
    | .error e => .error e
    | .ok r => (compileSkips ps).map (fun rs => r :: rs)

/-- The regex a single safe glob character compiles to. -/
def globAtom (c : Char) : Regex :=
  if c = '.' then litChar '.'
  else if c = '*' then .star dotR
  else if c = '?' then dotR
  else litChar c

/-- The regex an entire safe glob pattern compiles to. -/
def globRegex (p : List Char) : Regex := mkSeq (p.map globAtom)

/-- Pattern characters whose translation the regex engine reads back as a
single atom: everything except the regex metacharacters that the script's
translation leaves unescaped. -/
def safeChar (c : Char) : Bool :=
  !(c = '\\' || c = '[' || c = ']' || c = '(' || c = ')' || c = '\x7b' ||
    c = '\x7d' || c = '|' || c = '^' || c = '$' || c = '+')

/-- Glob matching as the code realises it: `*` spans zero or more
characters other than the line feed, `?` one character other than the line
feed, and every other pattern character (including `.`) only itself. -/
def GlobM : List Char → List Char → Prop
  | [], s => s = []
  | c :: p, s =>
    if c = '*' then ∃ s₁ s₂, s = s₁ ++ s₂ ∧ (∀ ch ∈ s₁, ch ≠ '\n') ∧ GlobM p s₂
    else if c = '?' then ∃ ch s', ch ≠ '\n' ∧ s = ch :: s' ∧ GlobM p s'
    else ∃ s', s = c :: s' ∧ GlobM p s'

/-- Glob matching as the specification's words have it: `*` spans zero or
more arbitrary characters and `?` exactly one arbitrary character, with no
exception for the line feed. -/
def GlobClaim : List Char → List Char → Prop
  | [], s => s = []
  | c :: p, s =>
    if c = '*' then ∃ s₁ s₂, s = s₁ ++ s₂ ∧ GlobClaim p s₂
    else if c = '?' then ∃ ch s', s = ch :: s' ∧ GlobClaim p s'
    else ∃ s', s = c :: s' ∧ GlobClaim p s'

/-- One compiled skip pattern applied to one relative path, i.e. pattern
compilation followed by `Pattern.search`. -/
def skipMatches (pat rel : String) : Bool :=
  match compilePattern pat.data with
  | .ok r => rsearch r rel.data
  | .error _ => false

/-- Splitting a byte string the way iterating a Python binary file handle
does: chunks end after each line-feed byte `10`, and a final chunk without
a terminator is still yielded.  `cur` accumulates the current chunk in
reverse. -/
def pyLinesAux : List Nat → List Nat → List (List Nat)
  | cur, [] => if cur = [] then [] else [cur.reverse]
  | cur, b :: bs =>
    if b = 10 then (cur.reverse ++ [10]) :: pyLinesAux [] bs
    else pyLinesAux (b :: cur) bs

/-- Line counting of line 52 of the source, `sum(1 for _ in f)` on a file
opened in binary mode: the number of chunks the byte content splits into. -/
def lineCount (bs : List Nat) : Nat := (pyLinesAux [] bs).length

/-- Whether the byte content ends with a line-feed byte. -/
def endsNl : List Nat → Bool
  | [] => false
  | [b] => b == 10
  | _ :: bs => endsNl bs

/-- Configuration of one invocation: the two thresholds (Python ints, so
unbounded and possibly negative) and the skip patterns in order. -/
structure Config : Type where
  warnLines : Int
  maxLines : Int
  skip : List String
deriving DecidableEq

/-- Oracle for the process environment.  `relpath` is
`os.path.relpath(filename)` against the current working directory; it is
outside any try block in the source, so its failure (a `ValueError`, e.g.
for an empty path) is modelled as `Except.error`.  `readFile` is
`open(filename, 'rb')` plus reading all bytes; its `Except.error` carries
the text of the caught `IOError`/`OSError`. -/
structure Sys : Type where
  relpath : String → Except Unit String
  readFile : String → Except String (List Nat)

/-- The mutable state of `main`'s loop: `retval`, `has_warnings`, the
`warnings` and `errors` lists, and the stream of `print` calls so far. -/
structure LoopState : Type where
  retval : Nat
  hasWarnings : Bool
  warnings : List String
  errors : List String
  output : List String
deriving DecidableEq

/-- The observable result of a completed run: every `print` call in order,
and the value `main` returns, which becomes the process exit code. -/
structure Summary : Type where
  output : List String
  exitCode : Nat
deriving DecidableEq

/-- The per-file error message of line 55 of the source. -/
def errMsg (rel : String) (n : Nat) (maxLines : Int) : String :=
  "ERROR: " ++ rel ++ " has " ++ toString n ++
    " lines, which exceeds the maximum of " ++ toString maxLines

/-- The per-file warning message of line 60 of the source. -/
def warnMsg (rel : String) (n : Nat) (warnLines : Int) : String :=
  "WARNING: " ++ rel ++ " has " ++ toString n ++
    " lines, which exceeds the warning threshold of " ++ toString warnLines

/-- The per-file I/O failure message of line 65 of the source. -/
def failMsg (rel : String) (e : String) : String :=
  "Failed to check " ++ rel ++ ": " ++ e

/-- One iteration of the loop of lines 36 to 68 of the source: compute the
relative path (uncaught failure aborts the run), test the skip patterns
against it, then open and count, comparing against the max threshold first
and the warn threshold second; `IOError`/`OSError` from open or read is
caught and recorded. -/
def processFile (cfg : Config) (pats : List Regex) (sys : Sys)
    (st : LoopState) (filename : String) : Except Unit LoopState :=
  match sys.relpath filename with
  | .error _ => .error ()
  | .ok rel =>
    if pats.any (fun r => rsearch r rel.data) then .ok st
    else
      match sys.readFile filename with
      | .ok bs =>
        let n := lineCount bs
        if cfg.maxLines ≤ (n : Int) then
          let msg := errMsg rel n cfg.maxLines
          .ok { st with retval := 1, errors := st.errors ++ [msg],
                        output := st.output ++ [msg] }
        else if cfg.warnLines ≤ (n : Int) then
          let msg := warnMsg rel n cfg.warnLines
          .ok { st with hasWarnings := true, warnings := st.warnings ++ [msg],
                        output := st.output ++ [msg] }
        else .ok st
      | .error e =>
        let msg := failMsg rel e
        .ok { st with retval := 1, errors := st.errors ++ [msg],
                      output := st.output ++ [msg] }

/-- What processing one file amounts to, as a record. -/
inductive FileOutcome : Type where
  | skipped : FileOutcome
  | ok : FileOutcome
  | warn (msg : String) : FileOutcome
  | err (msg : String) : FileOutcome
deriving DecidableEq

/-- The outcome of one loop iteration, separated from its effect on the
loop state. -/
def classify (cfg : Config) (pats : List Regex) (sys : Sys)
    (filename : String) : Except Unit FileOutcome :=
  match sys.relpath filename with
  | .error _ => .error ()
  | .ok rel =>
    if pats.any (fun r => rsearch r rel.data) then .ok .skipped
    else
      match sys.readFile filename with
      | .ok bs =>
        let n := lineCount bs
        if cfg.maxLines ≤ (n : Int) then .ok (.err (errMsg rel n cfg.maxLines))
        else if cfg.warnLines ≤ (n : Int) then .ok (.warn (warnMsg rel n cfg.warnLines))
        else .ok .ok
      | .error e => .ok (.err (failMsg rel e))

/-- Effect of one outcome on the loop state. -/
def applyOutcome (st : LoopState) : FileOutcome → LoopState
  | .skipped => st
  | .ok => st
  | .warn m =>
      { st with hasWarnings := true, warnings := st.warnings ++ [m],
                output := st.output ++ [m] }
  | .err m =>
      { st with retval := 1, errors := st.errors ++ [m],
                output := st.output ++ [m] }

/-- The state of lines 22 to 25 of the source before the loop starts. -/
def initState : LoopState :=
  { retval := 0, hasWarnings := false, warnings := [], errors := [], output := [] }

/-- The loop over `args.filenames`. -/
def runLoop (cfg : Config) (pats : List Regex) (sys : Sys) :
    LoopState → List String → Except Unit LoopState
  | st, [] => .ok st
  | st, p :: ps =>
    match processFile cfg pats sys st p with
    | .error e => .error e
    | .ok st' => runLoop cfg pats sys st' ps

/-- The summary block of lines 70 to 79 of the source and the returned
exit code. -/
def summarize (st : LoopState) : Summary :=
  { output := st.output ++
      (if st.warnings = [] then []
       else "\nWarnings summary:" :: st.warnings.map (fun w => "- " ++ w)) ++
      (if st.errors = [] then []
       else "\nErrors summary:" :: st.errors.map (fun e => "- " ++ e)),
    exitCode := st.retval }

/-- The whole of `main` after argument parsing: compile the skip patterns
(an exception there aborts before any file is touched), run the loop, then
print the summaries and return `retval`.  `Except.error` models the run
dying with an uncaught exception. -/
def Run (cfg : Config) (sys : Sys) (paths : List String) : Except Unit Summary :=
  match compileSkips cfg.skip with
  | .error _ => .error ()
  | .ok pats => (runLoop cfg pats sys initState paths).map summarize

/-- Outcomes of a list of files, stopping at the first aborting one. -/
def classifyAll (cfg : Config) (pats : List Regex) (sys : Sys) :
    List String → Except Unit (List FileOutcome)
  | [] => .ok []
  | p :: ps =>
    match classify cfg pats sys p with
    | .error e => .error e
    | .ok o => (classifyAll cfg pats sys ps).map (fun os => o :: os)

/-- Lines a given outcome prints immediately. -/
def outLines : FileOutcome → List String
  | .warn m => [m]
  | .err m => [m]
  | _ => []

/-- Warning-list contribution of an outcome. -/
def outWarns : FileOutcome → List String
  | .warn m => [m]
  | _ => []

/-- Error-list contribution of an outcome. -/
def outErrs : FileOutcome → List String
  | .err m => [m]
  | _ => []

/-- Whether an outcome is error-severity (threshold or I/O). -/
def isErr : FileOutcome → Bool
  | .err _ => true
  | _ => false

/-- Whether an outcome is a warning. -/
def isWarn : FileOutcome → Bool
  | .warn _ => true
  | _ => false

/-- Concatenated contributions of a list of outcomes. -/
def collect (f : FileOutcome → List String) : List FileOutcome → List String
  | [] => []
  | o :: os => f o ++ collect f os

/-- Folding a list of outcomes into the loop state. -/
def applyAll (st : LoopState) (outs : List FileOutcome) : LoopState :=
  outs.foldl applyOutcome st

/-- The summary a completed run assembles from its file outcomes. -/
def assemble (outs : List FileOutcome) : Summary :=
  { output := collect outLines outs ++
      (if collect outWarns outs = [] then []
       else "\nWarnings summary:" :: (collect outWarns outs).map (fun w => "- " ++ w)) ++
      (if collect outErrs outs = [] then []
       else "\nErrors summary:" :: (collect outErrs outs).map (fun e => "- " ++ e)),
    exitCode := if outs.any isErr then 1 else 0 }

/-- The claim's characterisation of a file that forces exit code 1: not
skipped, and either unreadable or at or over the max threshold. -/
def fileErrorB (cfg : Config) (pats : List Regex) (sys : Sys) (p : String) : Bool :=
  match sys.relpath p with
  | .error _ => false
  | .ok rel =>
    !(pats.any (fun r => rsearch r rel.data)) &&
      (match sys.readFile p with
       | .error _ => true
       | .ok bs => decide (cfg.maxLines ≤ (lineCount bs : Int)))

/-- Environment whose relative paths are the paths themselves and in which
every file has the same given content; used to instantiate theorems. -/
def sysA (bs : List Nat) : Sys :=
  { relpath := fun p => .ok p, readFile := fun _ => .ok bs }

/-- Environment in which every open fails; used to instantiate theorems. -/
def sysFail : Sys :=
  { relpath := fun p => .ok p, readFile := fun _ => .error "boom" }

/-- Environment in which relativization itself fails; used to instantiate
theorems. -/
def sysRelFail : Sys :=
  { relpath := fun _ => .error (), readFile := fun _ => .ok [] }

/-- Environment agreeing with `sysA [10]` on the path `a` only; used to
instantiate the determinism theorem. -/
def sysB : Sys :=
  { relpath := fun p => .ok p,
    readFile := fun p => if p = "a" then .ok [10] else .error "nope" }

/-- Environment agreeing with `sysFail` except on the path `a`, where the
read succeeds; used to instantiate the skip-before-open theorem. -/
def sysC : Sys :=
  { relpath := fun p => .ok p,
    readFile := fun p => if p = "a" then .ok [] else .error "boom" }

end CheckFileLength

namespace CheckFileLength

/-! ### Correctness of the derivative-based matcher -/

theorem acc_zero {s : List Char} : Accepts .zero s ↔ False :=
  ⟨fun h => (nomatch h), False.elim⟩

theorem acc_eps {s : List Char} : Accepts .eps s ↔ s = [] := by
  constructor
  · intro h
    cases h
    rfl
  · intro h
    exact h ▸ .eps

theorem acc_pred {p : Char → Bool} {s : List Char} :
    Accepts (.pred p) s ↔ ∃ c, p c = true ∧ s = [c] := by
  constructor
  · intro h
    cases h with
    | pred hp => exact ⟨_, hp, rfl⟩
  · rintro ⟨c, hp, rfl⟩
    exact .pred hp

theorem acc_pred_cons {p : Char → Bool} {c : Char} {s : List Char} :
    Accepts (.pred p) (c :: s) ↔ p c = true ∧ s = [] := by
  rw [acc_pred]
  constructor
  · rintro ⟨d, hp, he⟩
    injection he with h1 h2
    subst h1; subst h2
    exact ⟨hp, rfl⟩
  · rintro ⟨hp, rfl⟩
    exact ⟨c, hp, rfl⟩

theorem acc_concat {r₁ r₂ : Regex} {s : List Char} :
    Accepts (.concat r₁ r₂) s ↔ ∃ s₁ s₂, s = s₁ ++ s₂ ∧ Accepts r₁ s₁ ∧ Accepts r₂ s₂ := by
  constructor
  · intro h
    cases h with
    | concat h₁ h₂ => exact ⟨_, _, rfl, h₁, h₂⟩
  · rintro ⟨s₁, s₂, rfl, h₁, h₂⟩
    exact .concat h₁ h₂

theorem acc_alt {r₁ r₂ : Regex} {s : List Char} :
    Accepts (.alt r₁ r₂) s ↔ Accepts r₁ s ∨ Accepts r₂ s := by
  constructor
  · intro h
    cases h with
    | altL h => exact Or.inl h
    | altR h => exact Or.inr h
  · rintro (h | h)
    · exact .altL h
    · exact .altR h

theorem acc_star_nil {r : Regex} : Accepts (.star r) [] :=
  .starNil

theorem acc_star_cons {r : Regex} {c : Char} {s : List Char} :
    Accepts (.star r) (c :: s) ↔
      ∃ s₁ s₂, s = s₁ ++ s₂ ∧ Accepts r (c :: s₁) ∧ Accepts (.star r) s₂ := by
  constructor
  · intro h
    generalize he : c :: s = t at h
    cases h with
    | starNil => exact absurd he (List.cons_ne_nil c s)
    | starCons h₁ h₂ =>
      rename_i c' s₁ s₂
      injection he with hc hs
      subst hc
      exact ⟨s₁, s₂, hs, h₁, h₂⟩
  · rintro ⟨s₁, s₂, rfl, h₁, h₂⟩
    exact .starCons h₁ h₂

theorem nullable_iff : ∀ (r : Regex), nullable r = true ↔ Accepts r [] := by
  intro r
  induction r with
  | zero => simp [nullable, acc_zero]
  | eps => simp [nullable, acc_eps]
  | pred p => simp [nullable, acc_pred]
  | concat r₁ r₂ ih₁ ih₂ =>
    simp only [nullable, Bool.and_eq_true, ih₁, ih₂, acc_concat]
    constructor
    · rintro ⟨h₁, h₂⟩
      exact ⟨[], [], rfl, h₁, h₂⟩
    · rintro ⟨s₁, s₂, he, h₁, h₂⟩
      rcases List.append_eq_nil.mp he.symm with ⟨rfl, rfl⟩
      exact ⟨h₁, h₂⟩
  | alt r₁ r₂ ih₁ ih₂ => simp [nullable, acc_alt, Bool.or_eq_true, ih₁, ih₂]
  | star r ih => simp [nullable, acc_star_nil]

theorem deriv_iff (r : Regex) (c : Char) :
    ∀ s, Accepts (deriv r c) s ↔ Accepts r (c :: s) := by
  induction r with
  | zero => intro s; simp [deriv, acc_zero]
  | eps => intro s; simp [deriv, acc_zero, acc_eps]
  | pred p =>
    intro s
    by_cases hp : p c = true
    · simp [deriv, hp, acc_eps, acc_pred_cons]
    · simp [deriv, hp, acc_zero, acc_pred_cons]
  | concat r₁ r₂ ih₁ ih₂ =>
    intro s
    by_cases hn : nullable r₁ = true
    · simp only [deriv]
      rw [if_pos hn]
      simp only [acc_alt, acc_concat, ih₁, ih₂]
      constructor
      · rintro (⟨s₁, s₂, rfl, h₁, h₂⟩ | h₂)
        · exact ⟨c :: s₁, s₂, rfl, h₁, h₂⟩
        · exact ⟨[], c :: s, rfl, (nullable_iff r₁).mp hn, h₂⟩
      · rintro ⟨s₁, s₂, he, h₁, h₂⟩
        cases s₁ with
        | nil =>
          right
          have h' : c :: s = s₂ := by simpa using he
          rw [← h'] at h₂
          exact h₂
        | cons a s₁' =>
          injection he with h1 h2
          subst h1
          exact Or.inl ⟨s₁', s₂, h2, h₁, h₂⟩
    · simp only [deriv]
      rw [if_neg hn]
      simp only [acc_concat, ih₁]
      constructor
      · rintro ⟨s₁, s₂, rfl, h₁, h₂⟩
        exact ⟨c :: s₁, s₂, rfl, h₁, h₂⟩
      · rintro ⟨s₁, s₂, he, h₁, h₂⟩
        cases s₁ with
        | nil => exact absurd ((nullable_iff r₁).mpr h₁) hn
        | cons a s₁' =>
          injection he with h1 h2
          subst h1
          exact ⟨s₁', s₂, h2, h₁, h₂⟩
  | alt r₁ r₂ ih₁ ih₂ => intro s; simp [deriv, acc_alt, ih₁, ih₂]
  | star r ih =>
    intro s
    simp [deriv, acc_concat, ih, acc_star_cons]

theorem matchHere_iff :
    ∀ (s : List Char) (r : Regex),
      matchHere r s = true ↔ ∃ s₁ s₂, s = s₁ ++ s₂ ∧ Accepts r s₁ := by
  intro s
  induction s with
  | nil =>
    intro r
    simp only [matchHere, nullable_iff]
    constructor
    · intro h
      exact ⟨[], [], rfl, h⟩
    · rintro ⟨s₁, s₂, he, h⟩
      rcases List.append_eq_nil.mp he.symm with ⟨rfl, rfl⟩
      exact h
  | cons c s ih =>
    intro r
    simp only [matchHere, Bool.or_eq_true, nullable_iff, ih (deriv r c), deriv_iff]
    constructor
    · rintro (h | ⟨a, b, rfl, h⟩)
      · exact ⟨[], c :: s, rfl, h⟩
      · exact ⟨c :: a, b, rfl, h⟩
    · rintro ⟨s₁, s₂, he, h⟩
      cases s₁ with
      | nil =>
        left
        have h' : c :: s = s₂ := by simpa using he
        exact h
      | cons a s₁' =>
        injection he with h1 h2
        subst h1
        exact Or.inr ⟨s₁', s₂, h2, h⟩

theorem rsearch_iff :
    ∀ (s : List Char) (r : Regex),
      rsearch r s = true ↔ ∃ pre mid post, s = pre ++ mid ++ post ∧ Accepts r mid := by
  intro s
  induction s with
  | nil =>
    intro r
    simp only [rsearch, nullable_iff]
    constructor
    · intro h
      exact ⟨[], [], [], rfl, h⟩
    · rintro ⟨pre, mid, post, he, h⟩
      rcases List.append_eq_nil.mp he.symm with ⟨he', rfl⟩
      rcases List.append_eq_nil.mp he' with ⟨rfl, rfl⟩
      exact h
  | cons c s ih =>
    intro r
    simp only [rsearch, Bool.or_eq_true, matchHere_iff, ih]
    constructor
    · rintro (⟨mid, post, he, h⟩ | ⟨pre, mid, post, rfl, h⟩)
      · exact ⟨[], mid, post, by simpa using he, h⟩
      · exact ⟨c :: pre, mid, post, rfl, h⟩
    · rintro ⟨pre, mid, post, he, h⟩
      cases pre with
      | nil =>
        left
        exact ⟨mid, post, by simpa using he, h⟩
      | cons a pre' =>
        injection he with h1 h2
        subst h1
        exact Or.inr ⟨pre', mid, post, h2, h⟩

theorem star_pred_iff (q : Char → Bool) :
    ∀ s, Accepts (.star (.pred q)) s ↔ ∀ c ∈ s, q c = true := by
  intro s
  induction s with
  | nil => simp [acc_star_nil]
  | cons c s ih =>
    rw [acc_star_cons]
    constructor
    · rintro ⟨s₁, s₂, he, h₁, h₂⟩
      rcases acc_pred_cons.mp h₁ with ⟨hq, rfl⟩
      simp only [List.nil_append] at he
      subst he
      intro d hd
      rcases List.mem_cons.mp hd with rfl | hd
      · exact hq
      · exact ih.mp h₂ d hd
    · intro h
      exact ⟨[], s, rfl, acc_pred_cons.mpr ⟨h c (List.mem_cons_self c s), rfl⟩,
        ih.mpr fun d hd => h d (List.mem_cons_of_mem c hd)⟩

end CheckFileLength

namespace CheckFileLength

/-! ### Line counting -/

theorem endsNl_cons (b : Nat) (bs : List Nat) :
    endsNl (b :: bs) = if bs = [] then b == 10 else endsNl bs := by
  cases bs with
  | nil => rfl
  | cons b' bs' => rfl

theorem pyLinesAux_length :
    ∀ (bs cur : List Nat),
      (pyLinesAux cur bs).length =
        bs.countP (fun b => b == 10) +
          (if bs = [] then (if cur = [] then 0 else 1)
           else if endsNl bs then 0 else 1) := by
  intro bs
  induction bs with
  | nil =>
    intro cur
    by_cases h : cur = [] <;> simp [pyLinesAux, h]
  | cons b bs ih =>
    intro cur
    by_cases hb : b = 10
    · subst hb
      have h1 : pyLinesAux cur (10 :: bs) = (cur.reverse ++ [10]) :: pyLinesAux [] bs := by
        simp [pyLinesAux]
      rw [h1, List.length_cons, ih [], endsNl_cons, List.countP_cons]
      by_cases h : bs = []
      · simp [h]
      · simp [h]
        split_ifs <;> omega
    · have h1 : pyLinesAux cur (b :: bs) = pyLinesAux (b :: cur) bs := by
        simp [pyLinesAux, hb]
      rw [h1, ih (b :: cur), endsNl_cons, List.countP_cons]
      by_cases h : bs = [] <;> simp [h, hb]

/-! ### The glob translation and its compiled form -/

theorem pyReplace_append (old : Char) (new a b : List Char) :
    pyReplace old new (a ++ b) = pyReplace old new a ++ pyReplace old new b := by
  induction a with
  | nil => rfl
  | cons c a ih => simp [pyReplace, ih]

theorem translate_nil : translate [] = [] := rfl

theorem translate_cons (c : Char) (p : List Char) :
    translate (c :: p) = translateChar c ++ translate p := by
  have h : (c :: p) = [c] ++ p := rfl
  rw [h]
  simp only [translate, pyReplace_append]
  by_cases h1 : c = '.'
  · subst h1; rfl
  · by_cases h2 : c = '*'
    · subst h2; rfl
    · by_cases h3 : c = '?'
      · subst h3; rfl
      · simp [translateChar, h1, h2, h3, pyReplace]

theorem safeChar_facts {c : Char} (hc : safeChar c = true) :
    c ≠ '\\' ∧ c ≠ '[' ∧ c ≠ ']' ∧ c ≠ '(' ∧ c ≠ ')' ∧ c ≠ '\x7b' ∧
      c ≠ '\x7d' ∧ c ≠ '|' ∧ c ≠ '^' ∧ c ≠ '$' ∧ c ≠ '+' := by
  simp only [safeChar, Bool.not_eq_eq_eq_not, Bool.not_true, Bool.or_eq_false_iff,
    decide_eq_false_iff_not] at hc
  tauto

/-! ### Single steps of the pattern parser -/

theorem parseSeqF_nil (fuel : Nat) (acc : List Regex) (st : RepState) :
    parseSeqF fuel acc st [] = .ok (mkSeq acc.reverse) := by
  cases fuel <;> rfl

theorem parseSeqF_dot (f : Nat) (acc : List Regex) (st : RepState) (rest : List Char) :
    parseSeqF (f + 1) acc st ('.' :: rest) = parseSeqF f (dotR :: acc) .fresh rest := rfl

theorem parseSeqF_esc_dot (f : Nat) (acc : List Regex) (st : RepState) (rest : List Char) :
    parseSeqF (f + 1) acc st ('\\' :: '.' :: rest) =
      parseSeqF f (litChar '.' :: acc) .fresh rest := rfl

theorem parseSeqF_star_after (f : Nat) (r : Regex) (acc : List Regex) (rest : List Char) :
    parseSeqF (f + 1) (r :: acc) .fresh ('*' :: rest) =
      parseSeqF f (.star r :: acc) .repeated rest := rfl

theorem parseSeqF_lit (f : Nat) (acc : List Regex) (st : RepState) (c : Char)
    (rest : List Char) (h1 : c ≠ '*') (h2 : c ≠ '+') (h3 : c ≠ '?') (h4 : c ≠ '\\')
    (h5 : c ≠ '.') (h6 : c ≠ '[') (h7 : c ≠ '(') (h8 : c ≠ ')') (h9 : c ≠ '|')
    (h10 : c ≠ '^') (h11 : c ≠ '$') :
    parseSeqF (f + 1) acc st (c :: rest) = parseSeqF f (litChar c :: acc) .fresh rest := by
  rw [parseSeqF.eq_def]
  simp [h1, h2, h3, h4, h5, h6, h7, h8, h9, h10, h11]

/-! ### Compiled safe patterns are exactly the glob regexes -/

theorem ga_dot : globAtom '.' = litChar '.' := rfl

theorem ga_star : globAtom '*' = .star dotR := rfl

theorem ga_q : globAtom '?' = dotR := rfl

theorem ga_lit (c : Char) (h1 : c ≠ '*') (h2 : c ≠ '?') : globAtom c = litChar c := by
  by_cases h3 : c = '.'
  · subst h3; rfl
  · simp [globAtom, h1, h2, h3]

theorem parseSeqF_translate (p : List Char) (hp : p.all safeChar = true) :
    ∀ (fuel : Nat) (acc : List Regex) (st : RepState),
      (translate p).length < fuel →
      parseSeqF fuel acc st (translate p) = .ok (mkSeq (acc.reverse ++ p.map globAtom)) := by
  induction p with
  | nil =>
    intro fuel acc st _
    rw [translate_nil, parseSeqF_nil]
    simp
  | cons c p ih =>
    intro fuel acc st hfuel
    rw [List.all_cons, Bool.and_eq_true] at hp
    obtain ⟨hc, hp'⟩ := hp
    rw [translate_cons] at hfuel ⊢
    obtain ⟨e1, e2, e3, e4, e5, e6, e7, e8, e9, e10, e11⟩ := safeChar_facts hc
    by_cases h1 : c = '.'
    · subst h1
      rw [show translateChar '.' = ['\\', '.'] from rfl] at hfuel ⊢
      simp only [List.length_append, List.length_cons, List.length_nil] at hfuel
      cases fuel with
      | zero => omega
      | succ f =>
        show parseSeqF (f + 1) acc st ('\\' :: '.' :: translate p) = _
        rw [parseSeqF_esc_dot, ih hp' f (litChar '.' :: acc) .fresh (by omega)]
        simp [mkSeq, ga_dot]
    · by_cases h2 : c = '*'
      · subst h2
        rw [show translateChar '*' = ['.', '*'] from rfl] at hfuel ⊢
        simp only [List.length_append, List.length_cons, List.length_nil] at hfuel
        cases fuel with
        | zero => omega
        | succ f =>
          show parseSeqF (f + 1) acc st ('.' :: '*' :: translate p) = _
          rw [parseSeqF_dot]
          cases f with
          | zero => omega
          | succ f' =>
            rw [parseSeqF_star_after, ih hp' f' (Regex.star dotR :: acc) .repeated (by omega)]
            simp [mkSeq, ga_star]
      · by_cases h3 : c = '?'
        · subst h3
          rw [show translateChar '?' = ['.'] from rfl] at hfuel ⊢
          simp only [List.length_append, List.length_cons, List.length_nil] at hfuel
          cases fuel with
          | zero => omega
          | succ f =>
            show parseSeqF (f + 1) acc st ('.' :: translate p) = _
            rw [parseSeqF_dot, ih hp' f (dotR :: acc) .fresh (by omega)]
            simp [mkSeq, ga_q]
        · rw [show translateChar c = [c] from by simp [translateChar, h1, h2, h3]] at hfuel ⊢
          simp only [List.length_append, List.length_cons, List.length_nil] at hfuel
          cases fuel with
          | zero => omega
          | succ f =>
            show parseSeqF (f + 1) acc st (c :: translate p) = _
            rw [parseSeqF_lit f acc st c _ h2 e11 h3 e1 h1 e2 e4 e5 e8 e9 e10,
              ih hp' f (litChar c :: acc) .fresh (by omega)]
            simp [mkSeq, ga_lit c h2 h3]

theorem compile_safe (p : List Char) (hp : p.all safeChar = true) :
    compilePattern p = .ok (globRegex p) := by
  have h := parseSeqF_translate p hp ((translate p).length + 1) [] .fresh (by omega)
  simpa [compilePattern, parseRegex, globRegex] using h

/-! ### The glob regex realises the glob semantics -/

theorem acc_lit (c : Char) (s : List Char) : Accepts (litChar c) s ↔ s = [c] := by
  rw [show litChar c = .pred (fun x => x == c) from rfl, acc_pred]
  constructor
  · rintro ⟨d, hd, rfl⟩
    simp at hd
    subst hd
    rfl
  · rintro rfl
    exact ⟨c, by simp, rfl⟩

theorem acc_dot (s : List Char) : Accepts dotR s ↔ ∃ ch, ch ≠ '\n' ∧ s = [ch] := by
  rw [show dotR = .pred (fun x => x != '\n') from rfl, acc_pred]
  simp

theorem acc_star_dot (s : List Char) :
    Accepts (.star dotR) s ↔ ∀ ch ∈ s, ch ≠ '\n' := by
  rw [show dotR = .pred (fun x => x != '\n') from rfl, star_pred_iff]
  simp

theorem globRegex_accepts :
    ∀ (p s : List Char), Accepts (globRegex p) s ↔ GlobM p s := by
  intro p
  induction p with
  | nil => intro s; simp [globRegex, mkSeq, GlobM, acc_eps]
  | cons c p ih =>
    intro s
    have hg : globRegex (c :: p) = .concat (globAtom c) (globRegex p) := rfl
    rw [hg, acc_concat]
    by_cases h1 : c = '*'
    · subst h1
      rw [ga_star,
        show GlobM ('*' :: p) s =
          (∃ s₁ s₂, s = s₁ ++ s₂ ∧ (∀ ch ∈ s₁, ch ≠ '\n') ∧ GlobM p s₂) from by
            simp [GlobM]]
      constructor
      · rintro ⟨s₁, s₂, rfl, h₁, h₂⟩
        exact ⟨s₁, s₂, rfl, (acc_star_dot s₁).mp h₁, (ih s₂).mp h₂⟩
      · rintro ⟨s₁, s₂, rfl, h₁, h₂⟩
        exact ⟨s₁, s₂, rfl, (acc_star_dot s₁).mpr h₁, (ih s₂).mpr h₂⟩
    · by_cases h2 : c = '?'
      · subst h2
        rw [ga_q,
          show GlobM ('?' :: p) s =
            (∃ ch s', ch ≠ '\n' ∧ s = ch :: s' ∧ GlobM p s') from by simp [GlobM]]
        constructor
        · rintro ⟨s₁, s₂, rfl, h₁, h₂⟩
          rcases (acc_dot s₁).mp h₁ with ⟨ch, hch, rfl⟩
          exact ⟨ch, s₂, hch, rfl, (ih s₂).mp h₂⟩
        · rintro ⟨ch, s', hch, rfl, h₂⟩
          exact ⟨[ch], s', rfl, (acc_dot [ch]).mpr ⟨ch, hch, rfl⟩, (ih s').mpr h₂⟩
      · rw [ga_lit c h1 h2,
          show GlobM (c :: p) s = (∃ s', s = c :: s' ∧ GlobM p s') from by
            simp [GlobM, h1, h2]]
        constructor
        · rintro ⟨s₁, s₂, rfl, h₁, h₂⟩
          rcases (acc_lit c s₁).mp h₁ with rfl
          exact ⟨s₂, rfl, (ih s₂).mp h₂⟩
        · rintro ⟨s', rfl, h₂⟩
          exact ⟨[c], s', rfl, (acc_lit c [c]).mpr rfl, (ih s').mpr h₂⟩

end CheckFileLength

namespace CheckFileLength

/-! ### Decomposing the run into per-file outcomes -/

theorem processFile_eq (cfg : Config) (pats : List Regex) (sys : Sys)
    (st : LoopState) (p : String) :
    processFile cfg pats sys st p = (classify cfg pats sys p).map (applyOutcome st) := by
  unfold processFile classify
  cases h : sys.relpath p with
  | error e => rfl
  | ok rel =>
    by_cases hs : pats.any (fun r => rsearch r rel.data) = true
    · simp [hs, applyOutcome, Except.map]
    · simp only [Bool.not_eq_true] at hs
      cases hr : sys.readFile p with
      | ok bs =>
        by_cases hm : cfg.maxLines ≤ (lineCount bs : Int)
        · simp [hs, hm, applyOutcome, Except.map]
        · by_cases hw : cfg.warnLines ≤ (lineCount bs : Int) <;>
            simp [hs, hm, hw, applyOutcome, Except.map]
      | error e => simp [hs, applyOutcome, Except.map]

theorem applyAll_fields :
    ∀ (outs : List FileOutcome) (st : LoopState),
      applyAll st outs =
        { retval := if outs.any isErr then 1 else st.retval,
          hasWarnings := st.hasWarnings || outs.any isWarn,
          warnings := st.warnings ++ collect outWarns outs,
          errors := st.errors ++ collect outErrs outs,
          output := st.output ++ collect outLines outs } := by
  intro outs
  induction outs with
  | nil => intro st; simp [applyAll, collect]
  | cons o os ih =>
    intro st
    have h1 : applyAll st (o :: os) = applyAll (applyOutcome st o) os := rfl
    rw [h1, ih]
    cases o <;>
      simp [applyOutcome, isErr, isWarn, collect, outWarns, outErrs, outLines,
        List.append_assoc]

theorem runLoop_eq (cfg : Config) (pats : List Regex) (sys : Sys) :
    ∀ (ps : List String) (st : LoopState),
      runLoop cfg pats sys st ps = (classifyAll cfg pats sys ps).map (applyAll st) := by
  intro ps
  induction ps with
  | nil => intro st; simp [runLoop, classifyAll, applyAll, Except.map]
  | cons p ps ih =>
    intro st
    rw [show runLoop cfg pats sys st (p :: ps) =
        (match processFile cfg pats sys st p with
         | .error e => .error e
         | .ok st' => runLoop cfg pats sys st' ps) from rfl]
    rw [processFile_eq]
    rw [show classifyAll cfg pats sys (p :: ps) =
        (match classify cfg pats sys p with
         | .error e => .error e
         | .ok o => (classifyAll cfg pats sys ps).map (fun os => o :: os)) from rfl]
    cases classify cfg pats sys p with
    | error e => rfl
    | ok o =>
      simp only [Except.map]
      rw [ih (applyOutcome st o)]
      cases classifyAll cfg pats sys ps with
      | error e => rfl
      | ok os => rfl

theorem summarize_applyAll (outs : List FileOutcome) :
    summarize (applyAll initState outs) = assemble outs := by
  rw [applyAll_fields]
  simp [summarize, initState, assemble]

theorem Run_eq (cfg : Config) (sys : Sys) (paths : List String) (pats : List Regex)
    (hc : compileSkips cfg.skip = .ok pats) :
    Run cfg sys paths = (classifyAll cfg pats sys paths).map assemble := by
  unfold Run
  rw [hc]
  show (runLoop cfg pats sys initState paths).map summarize = _
  rw [runLoop_eq]
  cases classifyAll cfg pats sys paths with
  | error e => rfl
  | ok outs => simp [Except.map, summarize_applyAll]

/-! ### Facts about single-file outcomes -/

theorem classify_relerr (cfg : Config) (pats : List Regex) (sys : Sys) (p : String)
    (h : sys.relpath p = .error ()) : classify cfg pats sys p = .error () := by
  unfold classify
  rw [h]

theorem classify_skip (cfg : Config) (pats : List Regex) (sys : Sys) (p rel : String)
    (h : sys.relpath p = .ok rel)
    (hm : pats.any (fun r => rsearch r rel.data) = true) :
    classify cfg pats sys p = .ok .skipped := by
  unfold classify
  rw [h]
  simp [hm]

theorem classify_read (cfg : Config) (pats : List Regex) (sys : Sys) (p rel : String)
    (bs : List Nat) (h : sys.relpath p = .ok rel)
    (hm : pats.any (fun r => rsearch r rel.data) = false)
    (hr : sys.readFile p = .ok bs) :
    classify cfg pats sys p = .ok
      (if cfg.maxLines ≤ (lineCount bs : Int) then .err (errMsg rel (lineCount bs) cfg.maxLines)
       else if cfg.warnLines ≤ (lineCount bs : Int) then
         .warn (warnMsg rel (lineCount bs) cfg.warnLines)
       else .ok) := by
  simp only [classify, h, hm, hr, Bool.false_eq_true, if_false]
  split_ifs <;> rfl

theorem classify_readerr (cfg : Config) (pats : List Regex) (sys : Sys) (p rel e : String)
    (h : sys.relpath p = .ok rel)
    (hm : pats.any (fun r => rsearch r rel.data) = false)
    (hr : sys.readFile p = .error e) :
    classify cfg pats sys p = .ok (.err (failMsg rel e)) := by
  simp only [classify, h, hm, hr, Bool.false_eq_true, if_false]

/-! ### List-level helpers for the outcome decomposition -/

theorem collect_append (f : FileOutcome → List String) (a b : List FileOutcome) :
    collect f (a ++ b) = collect f a ++ collect f b := by
  induction a with
  | nil => rfl
  | cons o a ih => simp [collect, ih]

theorem classifyAll_append (cfg : Config) (pats : List Regex) (sys : Sys)
    (l₁ l₂ : List String) :
    classifyAll cfg pats sys (l₁ ++ l₂) =
      (match classifyAll cfg pats sys l₁ with
       | .error e => .error e
       | .ok o₁ => (classifyAll cfg pats sys l₂).map (fun o₂ => o₁ ++ o₂)) := by
  induction l₁ with
  | nil =>
    simp only [List.nil_append, classifyAll]
    cases classifyAll cfg pats sys l₂ with
    | error e => rfl
    | ok o => simp [Except.map]
  | cons p l₁ ih =>
    rw [List.cons_append]
    rw [show classifyAll cfg pats sys (p :: (l₁ ++ l₂)) =
        (match classify cfg pats sys p with
         | .error e => .error e
         | .ok o => (classifyAll cfg pats sys (l₁ ++ l₂)).map (fun os => o :: os)) from rfl]
    rw [show classifyAll cfg pats sys (p :: l₁) =
        (match classify cfg pats sys p with
         | .error e => .error e
         | .ok o => (classifyAll cfg pats sys l₁).map (fun os => o :: os)) from rfl]
    cases classify cfg pats sys p with
    | error e => rfl
    | ok o =>
      rw [ih]
      cases classifyAll cfg pats sys l₁ with
      | error e => rfl
      | ok o₁ =>
        cases classifyAll cfg pats sys l₂ with
        | error e => rfl
        | ok o₂ => rfl

theorem classifyAll_mem_error (cfg : Config) (pats : List Regex) (sys : Sys) :
    ∀ (paths : List String) (p : String), p ∈ paths →
      classify cfg pats sys p = .error () →
      classifyAll cfg pats sys paths = .error () := by
  intro paths
  induction paths with
  | nil => intro p hp; exact absurd hp (List.not_mem_nil p)
  | cons q paths ih =>
    intro p hp he
    rcases List.mem_cons.mp hp with rfl | hp'
    · simp [classifyAll, he]
    · simp only [classifyAll]
      cases hq : classify cfg pats sys q with
      | error e => rfl
      | ok o => rw [ih p hp' he]; rfl

theorem classifyAll_congr (cfg : Config) (pats : List Regex) (sys₁ sys₂ : Sys) :
    ∀ (paths : List String),
      (∀ p ∈ paths, classify cfg pats sys₁ p = classify cfg pats sys₂ p) →
      classifyAll cfg pats sys₁ paths = classifyAll cfg pats sys₂ paths := by
  intro paths
  induction paths with
  | nil => intro _; rfl
  | cons p paths ih =>
    intro h
    simp only [classifyAll]
    rw [h p (List.mem_cons_self p paths), ih (fun q hq => h q (List.mem_cons_of_mem p hq))]

end CheckFileLength

namespace CheckFileLength

/-! ### Further helpers for the claims -/

theorem classifyAll_single (cfg : Config) (pats : List Regex) (sys : Sys) (p : String) :
    classifyAll cfg pats sys [p] = (classify cfg pats sys p).map (fun o => [o]) := by
  simp only [classifyAll]
  cases classify cfg pats sys p with
  | error e => rfl
  | ok o => rfl

theorem classify_isErr (cfg : Config) (pats : List Regex) (sys : Sys) (p : String)
    (o : FileOutcome) (h : classify cfg pats sys p = .ok o) :
    isErr o = fileErrorB cfg pats sys p := by
  cases hrel : sys.relpath p with
  | error e =>
    rw [classify_relerr cfg pats sys p (by cases e; exact hrel)] at h
    cases h
  | ok rel =>
    by_cases hm : pats.any (fun r => rsearch r rel.data) = true
    · rw [classify_skip cfg pats sys p rel hrel hm] at h
      injection h with h'
      subst h'
      simp [isErr, fileErrorB, hrel, hm]
    · rw [Bool.not_eq_true] at hm
      cases hr : sys.readFile p with
      | ok bs =>
        rw [classify_read cfg pats sys p rel bs hrel hm hr] at h
        injection h with h'
        subst h'
        simp only [fileErrorB, hrel, hm, hr, Bool.not_false, Bool.true_and]
        split_ifs with h1 h2 <;> simp [isErr, h1]
      | error e =>
        rw [classify_readerr cfg pats sys p rel e hrel hm hr] at h
        injection h with h'
        subst h'
        simp [isErr, fileErrorB, hrel, hm, hr]

theorem classifyAll_anyErr (cfg : Config) (pats : List Regex) (sys : Sys) :
    ∀ (paths : List String) (outs : List FileOutcome),
      classifyAll cfg pats sys paths = .ok outs →
      outs.any isErr = paths.any (fileErrorB cfg pats sys) := by
  intro paths
  induction paths with
  | nil =>
    intro outs h
    injection h with h'
    subst h'
    rfl
  | cons p paths ih =>
    intro outs h
    simp only [classifyAll] at h
    cases hc : classify cfg pats sys p with
    | error e => rw [hc] at h; cases h
    | ok o =>
      rw [hc] at h
      cases hrest : classifyAll cfg pats sys paths with
      | error e => rw [hrest] at h; cases h
      | ok os =>
        rw [hrest] at h
        simp only [Except.map] at h
        injection h with h'
        subst h'
        simp only [List.any_cons]
        rw [classify_isErr cfg pats sys p o hc, ih os hrest]

theorem classify_congr (cfg : Config) (pats : List Regex) (sys₁ sys₂ : Sys) (p : String)
    (h1 : sys₁.relpath p = sys₂.relpath p)
    (h2 : sys₁.readFile p = sys₂.readFile p ∨
      ∀ rel, sys₁.relpath p = .ok rel → pats.any (fun r => rsearch r rel.data) = true) :
    classify cfg pats sys₁ p = classify cfg pats sys₂ p := by
  unfold classify
  rw [← h1]
  cases hrel : sys₁.relpath p with
  | error e => rfl
  | ok rel =>
    by_cases hm : pats.any (fun r => rsearch r rel.data) = true
    · simp [hm]
    · rcases h2 with h2 | h2
      · rw [h2]
      · exact absurd (h2 rel hrel) hm

end CheckFileLength

namespace CheckFileLength

/-! ### The claims -/

/-- C1 (counterexample): the claim that the computed line count equals the
number of newline bytes fails on a one-byte file without a terminator: the
code counts the unterminated segment as a line, so a file of content `[97]`
is counted as 1 line although it holds no newline byte, and a run with both
thresholds at 1 therefore reports an error where the claim predicts silence. -/
theorem C1_counterexample :
    lineCount [97] = 1 ∧ List.countP (fun b => b == 10) [97] = 0 ∧
      Run ⟨1, 1, []⟩ (sysA [97]) ["a"] =
        .ok { output := ["ERROR: a has 1 lines, which exceeds the maximum of 1",
                         "\nErrors summary:",
                         "- ERROR: a has 1 lines, which exceeds the maximum of 1"],
              exitCode := 1 } :=
  ⟨rfl, rfl, rfl⟩

/-- C1 (amended): for every file content, the line count computed by the
code equals the number of newline bytes, plus one more when the content is
nonempty and does not end in a newline — the final unterminated segment
counts as one extra line. -/
theorem C1_lineCount_amended (bs : List Nat) :
    lineCount bs =
      bs.countP (fun b => b == 10) +
        (if bs = [] then 0 else if endsNl bs then 0 else 1) := by
  unfold lineCount
  rw [pyLinesAux_length bs []]
  simp

/-- C2: a completed run returns exit code 1 exactly when some file in the
list is not skipped and either failed to open/read or reached the max
threshold, and exit code 0 otherwise (warnings included). -/
theorem C2_exit_code (cfg : Config) (pats : List Regex) (sys : Sys)
    (paths : List String) (s : Summary) (hc : compileSkips cfg.skip = .ok pats)
    (hr : Run cfg sys paths = .ok s) :
    (s.exitCode = 1 ↔ paths.any (fileErrorB cfg pats sys) = true) ∧
      (s.exitCode = 0 ↔ paths.any (fileErrorB cfg pats sys) = false) := by
  rw [Run_eq cfg sys paths pats hc] at hr
  cases ha : classifyAll cfg pats sys paths with
  | error e => rw [ha] at hr; cases hr
  | ok outs =>
    rw [ha] at hr
    simp only [Except.map] at hr
    injection hr with hr'
    subst hr'
    have h := classifyAll_anyErr cfg pats sys paths outs ha
    rw [← h]
    constructor
    · show (if outs.any isErr then 1 else 0 : Nat) = 1 ↔ outs.any isErr = true
      split_ifs with hi <;> simp [hi]
    · show (if outs.any isErr then 1 else 0 : Nat) = 0 ↔ outs.any isErr = false
      split_ifs with hi <;> simp [hi]

/-- C2 (witness): instantiation on a single short file that is well below
both thresholds: exit code 0, and no error-severity file exists. -/
theorem C2_witness :
    ((Summary.mk [] 0).exitCode = 1 ↔
        (["a"].any (fileErrorB ⟨500, 1000, []⟩ [] (sysA [10]))) = true) ∧
      ((Summary.mk [] 0).exitCode = 0 ↔
        (["a"].any (fileErrorB ⟨500, 1000, []⟩ [] (sysA [10]))) = false) :=
  C2_exit_code ⟨500, 1000, []⟩ [] (sysA [10]) ["a"] ⟨[], 0⟩ rfl rfl

/-- C3: for a non-skipped file that reads successfully, the max threshold
is compared first and the warn threshold only otherwise (in particular the
max comparison wins even when `maxLines < warnLines`); at or above max the
run prints exactly the one error message (echoed in the errors summary) and
exits 1, in `[warn, max)` exactly the one warning message (echoed in the
warnings summary) with exit 0, and below warn nothing at all. -/
theorem C3_threshold_priority (cfg : Config) (pats : List Regex) (sys : Sys)
    (p rel : String) (bs : List Nat) (hc : compileSkips cfg.skip = .ok pats)
    (hrel : sys.relpath p = .ok rel)
    (hskip : pats.any (fun r => rsearch r rel.data) = false)
    (hread : sys.readFile p = .ok bs) :
    Run cfg sys [p] = .ok
      (if cfg.maxLines ≤ (lineCount bs : Int) then
        { output := [errMsg rel (lineCount bs) cfg.maxLines, "\nErrors summary:",
                     "- " ++ errMsg rel (lineCount bs) cfg.maxLines],
          exitCode := 1 }
       else if cfg.warnLines ≤ (lineCount bs : Int) then
        { output := [warnMsg rel (lineCount bs) cfg.warnLines, "\nWarnings summary:",
                     "- " ++ warnMsg rel (lineCount bs) cfg.warnLines],
          exitCode := 0 }
       else { output := [], exitCode := 0 }) := by
  rw [Run_eq cfg sys [p] pats hc, classifyAll_single,
    classify_read cfg pats sys p rel bs hrel hskip hread]
  split_ifs with h1 h2 <;>
    simp [Except.map, assemble, collect, outLines, outWarns, outErrs, isErr]

/-- C3 (witness): with `warnLines = 5` and `maxLines = 1` a three-line file
is reported as an ERROR — the max comparison is made first even though the
count is below the warn threshold. -/
theorem C3_witness :
    Run ⟨5, 1, []⟩ (sysA [10, 10, 10]) ["a"] = .ok
      (if (Config.mk 5 1 []).maxLines ≤ (lineCount [10, 10, 10] : Int) then
        { output := [errMsg "a" (lineCount [10, 10, 10]) (Config.mk 5 1 []).maxLines,
                     "\nErrors summary:",
                     "- " ++ errMsg "a" (lineCount [10, 10, 10]) (Config.mk 5 1 []).maxLines],
          exitCode := 1 }
       else if (Config.mk 5 1 []).warnLines ≤ (lineCount [10, 10, 10] : Int) then
        { output := [warnMsg "a" (lineCount [10, 10, 10]) (Config.mk 5 1 []).warnLines,
                     "\nWarnings summary:",
                     "- " ++ warnMsg "a" (lineCount [10, 10, 10]) (Config.mk 5 1 []).warnLines],
          exitCode := 0 }
       else { output := [], exitCode := 0 }) :=
  C3_threshold_priority ⟨5, 1, []⟩ [] (sysA [10, 10, 10]) "a" "a" [10, 10, 10]
    rfl rfl rfl rfl

/-- C4: a path whose relative path matches some compiled skip pattern can
be removed from the path list without changing anything about the run — no
counting, no output, no effect on the exit code, whatever the file holds. -/
theorem C4_skip_no_effect (cfg : Config) (pats : List Regex) (sys : Sys)
    (p rel : String) (pre post : List String) (hc : compileSkips cfg.skip = .ok pats)
    (hrel : sys.relpath p = .ok rel)
    (hm : pats.any (fun r => rsearch r rel.data) = true) :
    Run cfg sys (pre ++ p :: post) = Run cfg sys (pre ++ post) := by
  rw [Run_eq cfg sys _ pats hc, Run_eq cfg sys _ pats hc, classifyAll_append,
    classifyAll_append]
  cases classifyAll cfg pats sys pre with
  | error e => rfl
  | ok o₁ =>
    rw [show classifyAll cfg pats sys (p :: post) =
        (match classify cfg pats sys p with
         | .error e => .error e
         | .ok o => (classifyAll cfg pats sys post).map (fun os => o :: os)) from rfl,
      classify_skip cfg pats sys p rel hrel hm]
    cases classifyAll cfg pats sys post with
    | error e => rfl
    | ok o₂ =>
      simp only [Except.map]
      congr 1
      simp [assemble, collect_append, collect, outLines, outWarns, outErrs, isErr,
        List.any_append]

/-- C4 (witness): a run over `[a, b]` with skip pattern `a` equals the run
over `[b]` alone. -/
theorem C4_witness :
    Run ⟨500, 1000, ["a"]⟩ (sysA []) ([] ++ "a" :: ["b"]) =
      Run ⟨500, 1000, ["a"]⟩ (sysA []) ([] ++ ["b"]) :=
  C4_skip_no_effect ⟨500, 1000, ["a"]⟩ [globRegex ['a']] (sysA []) "a" "a" [] ["b"]
    rfl rfl rfl

end CheckFileLength

namespace CheckFileLength

/-- C5 (counterexample): the claim's reading of `?` as "exactly one
arbitrary character" fails on the line-feed character: the path consisting
of a single line feed contains a one-character substring, yet the compiled
pattern `?` does not match it, because the translated regex `.` excludes
the line feed. -/
theorem C5_counterexample :
    (∃ pre mid post, ['\n'] = pre ++ mid ++ post ∧ GlobClaim ['?'] mid) ∧
      skipMatches "?" "\n" = false := by
  constructor
  · refine ⟨[], ['\n'], [], rfl, ?_⟩
    simp [GlobClaim]
  · rfl

/-- C5 (amended): for every pattern built from glob characters and
characters the translation leaves alone as regex literals, the compiled
pattern matches a relative path exactly when some substring of the path
matches the glob, where `*` spans zero or more characters other than the
line feed, `?` exactly one character other than the line feed, and `.`
only a literal dot — a substring search, not anchored to the whole path. -/
theorem C5_glob_substring (pat path : String) (hp : pat.data.all safeChar = true) :
    skipMatches pat path = true ↔
      ∃ pre mid post, path.data = pre ++ mid ++ post ∧ GlobM pat.data mid := by
  unfold skipMatches
  rw [compile_safe pat.data hp]
  show rsearch (globRegex pat.data) path.data = true ↔ _
  rw [rsearch_iff]
  constructor
  · rintro ⟨pre, mid, post, he, h⟩
    exact ⟨pre, mid, post, he, (globRegex_accepts pat.data mid).mp h⟩
  · rintro ⟨pre, mid, post, he, h⟩
    exact ⟨pre, mid, post, he, (globRegex_accepts pat.data mid).mpr h⟩

/-- C5 (witness): the pattern `a*b` against the path `zaxxbq`. -/
theorem C5_witness :
    skipMatches "a*b" "zaxxbq" = true ↔
      ∃ pre mid post, "zaxxbq".data = pre ++ mid ++ post ∧ GlobM "a*b".data mid :=
  C5_glob_substring "a*b" "zaxxbq" (by decide)

/-- C6: for a non-skipped file whose open or read fails, the per-file
outcome is exactly the one `Failed to check` message with error severity;
the run completes exactly when the run without this file completes, and a
completed run has exit code 1 and contains the message in its output. -/
theorem C6_io_error (cfg : Config) (pats : List Regex) (sys : Sys) (p rel e : String)
    (pre post : List String) (hc : compileSkips cfg.skip = .ok pats)
    (hrel : sys.relpath p = .ok rel)
    (hskip : pats.any (fun r => rsearch r rel.data) = false)
    (hread : sys.readFile p = .error e) :
    classify cfg pats sys p = .ok (.err (failMsg rel e)) ∧
      ((∃ s, Run cfg sys (pre ++ p :: post) = .ok s) ↔
        (∃ s, Run cfg sys (pre ++ post) = .ok s)) ∧
      (∀ s, Run cfg sys (pre ++ p :: post) = .ok s →
        s.exitCode = 1 ∧ failMsg rel e ∈ s.output) := by
  have hcl := classify_readerr cfg pats sys p rel e hrel hskip hread
  refine ⟨hcl, ?_, ?_⟩
  · rw [Run_eq cfg sys _ pats hc, Run_eq cfg sys _ pats hc, classifyAll_append,
      classifyAll_append]
    cases classifyAll cfg pats sys pre with
    | error e' => simp
    | ok o₁ =>
      rw [show classifyAll cfg pats sys (p :: post) =
          (match classify cfg pats sys p with
           | .error e => .error e
           | .ok o => (classifyAll cfg pats sys post).map (fun os => o :: os)) from rfl,
        hcl]
      cases classifyAll cfg pats sys post with
      | error e' => simp [Except.map]
      | ok o₂ => simp [Except.map]
  · intro s hs
    rw [Run_eq cfg sys _ pats hc, classifyAll_append] at hs
    cases ha : classifyAll cfg pats sys pre with
    | error e' => rw [ha] at hs; cases hs
    | ok o₁ =>
      rw [ha] at hs
      rw [show classifyAll cfg pats sys (p :: post) =
          (match classify cfg pats sys p with
           | .error e => .error e
           | .ok o => (classifyAll cfg pats sys post).map (fun os => o :: os)) from rfl,
        hcl] at hs
      cases hb : classifyAll cfg pats sys post with
      | error e' => rw [hb] at hs; cases hs
      | ok o₂ =>
        rw [hb] at hs
        simp only [Except.map] at hs
        injection hs with hs'
        subst hs'
        constructor
        · simp [assemble, List.any_append, List.any_cons, isErr]
        · simp [assemble, collect_append, collect, outLines, List.mem_append]

/-- C6 (witness): a single unreadable file: the outcome is the failure
message with error severity. -/
theorem C6_witness :
    classify ⟨500, 1000, []⟩ [] sysFail "a" = .ok (.err (failMsg "a" "boom")) :=
  (C6_io_error ⟨500, 1000, []⟩ [] sysFail "a" "a" "boom" [] [] rfl rfl rfl rfl).1

/-- C7 (counterexample): the claim says a failing relativization is not an
error condition and the run falls back to the original path; on the code a
failing `os.path.relpath` is an uncaught exception, so the run aborts
instead of completing with the fallback's empty output and exit code 0. -/
theorem C7_counterexample :
    Run ⟨500, 1000, []⟩ sysRelFail ["x"] = .error () ∧
      Run ⟨500, 1000, []⟩ sysRelFail ["x"] ≠ .ok { output := [], exitCode := 0 } := by
  refine ⟨rfl, fun h => ?_⟩
  rw [show Run ⟨500, 1000, []⟩ sysRelFail ["x"] = (.error () : Except Unit Summary)
    from rfl] at h
  exact Except.noConfusion h

/-- C7 (amended): `os.path.relpath` is called outside any exception
handler, so if relativization fails for any path in the list the whole run
aborts with an uncaught exception — there is no fallback to the original
path. -/
theorem C7_relpath_aborts (cfg : Config) (pats : List Regex) (sys : Sys)
    (paths : List String) (p : String) (hc : compileSkips cfg.skip = .ok pats)
    (hp : p ∈ paths) (hrel : sys.relpath p = .error ()) :
    Run cfg sys paths = .error () := by
  rw [Run_eq cfg sys paths pats hc,
    classifyAll_mem_error cfg pats sys paths p hp (classify_relerr cfg pats sys p hrel)]
  rfl

/-- C7 (witness): instantiation of the abort theorem. -/
theorem C7_witness : Run ⟨500, 1000, []⟩ sysRelFail ["x"] = .error () :=
  C7_relpath_aborts ⟨500, 1000, []⟩ [] sysRelFail ["x"] "x" rfl (by simp) rfl

/-- C8: the run is a function of the configuration, the path list, and the
environment's answers on those paths: two environments that agree on
relativization and file content for every listed path produce identical
output and exit code — in particular two runs over unchanged state are
byte-identical. -/
theorem C8_deterministic (cfg : Config) (sys₁ sys₂ : Sys) (paths : List String)
    (h : ∀ p ∈ paths, sys₁.relpath p = sys₂.relpath p ∧
      sys₁.readFile p = sys₂.readFile p) :
    Run cfg sys₁ paths = Run cfg sys₂ paths := by
  unfold Run
  cases hc : compileSkips cfg.skip with
  | error e => rfl
  | ok pats =>
    show (runLoop cfg pats sys₁ initState paths).map summarize =
      (runLoop cfg pats sys₂ initState paths).map summarize
    rw [runLoop_eq, runLoop_eq,
      classifyAll_congr cfg pats sys₁ sys₂ paths
        (fun p hp => classify_congr cfg pats sys₁ sys₂ p (h p hp).1 (Or.inl (h p hp).2))]

/-- C8 (witness): two different environments agreeing on the single listed
path give the same run. -/
theorem C8_witness :
    Run ⟨500, 1000, []⟩ (sysA [10]) ["a"] = Run ⟨500, 1000, []⟩ sysB ["a"] :=
  C8_deterministic ⟨500, 1000, []⟩ (sysA [10]) sysB ["a"]
    (fun p hp => by
      rw [List.mem_singleton] at hp
      subst hp
      exact ⟨rfl, rfl⟩)

/-- C9: skip filtering precedes opening: a matching path yields a silent
run with exit code 0 even in an environment where reading it would fail,
and the run's result does not depend on what reading that path would
return — the file is never opened. -/
theorem C9_skip_before_open (cfg : Config) (pats : List Regex) (sys : Sys)
    (p rel : String) (hc : compileSkips cfg.skip = .ok pats)
    (hrel : sys.relpath p = .ok rel)
    (hm : pats.any (fun r => rsearch r rel.data) = true) :
    Run cfg sys [p] = .ok { output := [], exitCode := 0 } ∧
      ∀ (sys₂ : Sys) (paths : List String), sys₂.relpath = sys.relpath →
        (∀ q, q ≠ p → sys₂.readFile q = sys.readFile q) →
        Run cfg sys₂ paths = Run cfg sys paths := by
  constructor
  · rw [Run_eq cfg sys [p] pats hc, classifyAll_single,
      classify_skip cfg pats sys p rel hrel hm]
    simp [Except.map, assemble, collect, outLines, outWarns, outErrs, isErr]
  · intro sys₂ paths hrel2 hread2
    unfold Run
    rw [hc]
    show (runLoop cfg pats sys₂ initState paths).map summarize =
      (runLoop cfg pats sys initState paths).map summarize
    rw [runLoop_eq, runLoop_eq]
    have hcong : ∀ q ∈ paths, classify cfg pats sys₂ q = classify cfg pats sys q := by
      intro q hq
      by_cases hqp : q = p
      · subst hqp
        refine classify_congr cfg pats sys₂ sys q (congrFun hrel2 q) (Or.inr ?_)
        intro rel' hrel'
        rw [congrFun hrel2 q, hrel] at hrel'
        injection hrel' with h'
        subst h'
        exact hm
      · exact classify_congr cfg pats sys₂ sys q (congrFun hrel2 q)
          (Or.inl (hread2 q hqp))
    rw [classifyAll_congr cfg pats sys₂ sys paths hcong]

/-- C9 (witness): a skipped path in an environment where opening it would
fail still yields the silent exit-code-0 run. -/
theorem C9_witness :
    Run ⟨500, 1000, ["a"]⟩ sysFail ["a"] = .ok { output := [], exitCode := 0 } :=
  (C9_skip_before_open ⟨500, 1000, ["a"]⟩ [globRegex ['a']] sysFail "a" "a"
    rfl rfl rfl).1

/-- C10: the translation escapes only `.` and rewrites only `*` and `?` —
a pattern free of those three characters passes through verbatim, so other
regex metacharacters reach the regex engine unescaped and keep their regex
meaning (`a+` finds `aa`, `[ab]` finds `b`), and a pattern that is
malformed as a regex, such as a lone `[`, makes compilation fail, aborting
the run before any file is consulted. -/
theorem C10_metachar_passthrough :
    (∀ p : List Char, (∀ c ∈ p, c ≠ '.' ∧ c ≠ '*' ∧ c ≠ '?') → translate p = p) ∧
      (∃ e, compilePattern ['['] = .error e) ∧
      (∀ (cfg : Config) (sys : Sys) (paths : List String), cfg.skip = ["["] →
        Run cfg sys paths = .error ()) ∧
      skipMatches "a+" "caa" = true ∧ skipMatches "a+" "cb" = false ∧
      skipMatches "[ab]" "zb" = true := by
  refine ⟨?_, ⟨"unterminated character set", rfl⟩, ?_, rfl, rfl, rfl⟩
  · intro p hp
    induction p with
    | nil => rfl
    | cons c p ih =>
      rw [translate_cons]
      obtain ⟨h1, h2, h3⟩ := hp c (List.mem_cons_self c p)
      rw [show translateChar c = [c] from by simp [translateChar, h1, h2, h3],
        ih (fun d hd => hp d (List.mem_cons_of_mem c hd))]
      rfl
  · intro cfg sys paths hskip
    unfold Run
    rw [hskip]
    rfl

/-- C10 (witness): a pattern without glob characters passes through the
translation unchanged, and a run configured with the malformed skip
pattern `[` aborts. -/
theorem C10_witness :
    translate ['z', '+', 'q'] = ['z', '+', 'q'] ∧
      Run ⟨500, 1000, ["["]⟩ (sysA []) ["f"] = .error () :=
  ⟨C10_metachar_passthrough.1 ['z', '+', 'q'] (by decide),
   C10_metachar_passthrough.2.2.1 ⟨500, 1000, ["["]⟩ (sysA []) ["f"] rfl⟩

end CheckFileLength
